import Mathlib

/-!
Verification of the tesseract cross-chain relayer core against its
natural-language specification.

The Rust sources under `src/relayer/src` are shallowly embedded: hash maps
(`HashMap`, `DashMap`) become association lists over `Nat` keys, `u64`
arithmetic becomes `Nat` (Rust's `saturating_sub` is exactly `Nat`
subtraction; the one unguarded `u64` subtraction is modelled as a guarded
`Option`), fallible paths return `Except`, and each `async fn` that mutates
shared state becomes a pure state-passing function.  32-byte ids
(`[u8; 32]`) and `H256` hashes are embedded as `Nat` keys; only equality of
ids is ever used by the code.
-/

namespace Tesseract

/-! ### Association-list maps

`HashMap`/`DashMap` keyed by ids or nonces are embedded as
`List (Nat × α)`; `insertKV` overwrites (as `HashMap::insert` does), and
`eraseKV` removes the key (as `remove` does; a hash map holds a key at most
once, so removing every copy is faithful on representable states). -/

def lookupKV : List (Nat × α) → Nat → Option α
  | [], _ => none
  | (k, v) :: rest, key => if k = key then some v else lookupKV rest key

def eraseKV (l : List (Nat × α)) (key : Nat) : List (Nat × α) :=
  l.filter (fun q => q.1 != key)

def insertKV (l : List (Nat × α)) (key : Nat) (v : α) : List (Nat × α) :=
  (key, v) :: eraseKV l key

/-- Model of mutating through `HashMap::get_mut` when the key is present:
the entry at the key is updated in place, other entries are untouched;
a missing key leaves the map unchanged. -/
def updateKV (l : List (Nat × α)) (key : Nat) (f : α → α) : List (Nat × α) :=
  l.map (fun q => if q.1 = key then (q.1, f q.2) else q)

/-! ### DependencyGraph (`src/relayer/src/coordination/dependency.rs`) -/

/-- States of `TransactionState` in `dependency.rs`. -/
inductive TransactionState where
  | Buffered
  | DependencyPending
  | Ready
  | Submitted
  | Finalized
  | Failed
  | Expired
deriving DecidableEq, Repr

/-- Fields of `PendingTransaction` in `dependency.rs` (`[u8; 32]` ids as
`Nat`). -/
structure PendingTransaction where
  tx_id : Nat
  origin_chain : Nat
  target_chain : Nat
  dependency_id : Option Nat
  swap_group_id : Option Nat
  state : TransactionState
  created_at : Nat
deriving DecidableEq, Repr

/-- The three maps of `DependencyGraph`: transactions, dependents
(tx_id to the set of transactions waiting on it) and swap groups
(group_id to the set of member transaction ids).  `HashSet` values become
duplicate-free lists built by `addToSet`. -/
structure DependencyGraph where
  transactions : List (Nat × PendingTransaction)
  dependents : List (Nat × List Nat)
  swap_groups : List (Nat × List Nat)
deriving DecidableEq, Repr

/-- Model of `map.entry(key).or_insert_with(HashSet::new).insert(x)`. -/
def addToSet (l : List (Nat × List Nat)) (key x : Nat) : List (Nat × List Nat) :=
  match lookupKV l key with
  | some s => insertKV l key (if x ∈ s then s else x :: s)
  | none => insertKV l key [x]

/-- `DependencyGraph::add_transaction`: store (overwrite) the transaction
under its id, then record the dependency and swap-group memberships when
present. -/
def add_transaction (g : DependencyGraph) (tx : PendingTransaction) :
    DependencyGraph :=
  let g1 : DependencyGraph :=
    { g with transactions := insertKV g.transactions tx.tx_id tx }
  let g2 : DependencyGraph :=
    match tx.dependency_id with
    | some dep_id => { g1 with dependents := addToSet g1.dependents dep_id tx.tx_id }
    | none => g1
  match tx.swap_group_id with
  | some group_id => { g2 with swap_groups := addToSet g2.swap_groups group_id tx.tx_id }
  | none => g2

/-- `DependencyGraph::mark_ready`: set the state to `Ready` when the id is
present; otherwise do nothing. -/
def mark_ready (g : DependencyGraph) (tx_id : Nat) : DependencyGraph :=
  { g with transactions :=
      updateKV g.transactions tx_id (fun tx => { tx with state := .Ready }) }

/-- `DependencyGraph::mark_submitted`. -/
def mark_submitted (g : DependencyGraph) (tx_id : Nat) : DependencyGraph :=
  { g with transactions :=
      updateKV g.transactions tx_id (fun tx => { tx with state := .Submitted }) }

/-- `DependencyGraph::mark_failed`. -/
def mark_failed (g : DependencyGraph) (tx_id : Nat) : DependencyGraph :=
  { g with transactions :=
      updateKV g.transactions tx_id (fun tx => { tx with state := .Failed }) }

/-- `DependencyGraph::notify_dependents`: every transaction waiting on the
resolved id that is currently `DependencyPending` becomes `Ready`. -/
def notify_dependents (g : DependencyGraph) (resolved_tx_id : Nat) :
    DependencyGraph :=
  match lookupKV g.dependents resolved_tx_id with
  | some waiting =>
      let elevate := fun (tx : PendingTransaction) =>
        if tx.state = .DependencyPending then { tx with state := .Ready } else tx
      let txs := waiting.foldl
        (fun txs waiting_tx_id => updateKV txs waiting_tx_id elevate)
        g.transactions
      { g with transactions := txs }
  | none => g

/-- `DependencyGraph::mark_finalized`: set the state to `Finalized` when the
id is present, then notify the dependents. -/
def mark_finalized (g : DependencyGraph) (tx_id : Nat) : DependencyGraph :=
  notify_dependents
    { g with transactions :=
        updateKV g.transactions tx_id (fun tx => { tx with state := .Finalized }) }
    tx_id

/-- `DependencyGraph::get_swap_group`: the members of the group that are
present in the transactions map (`filter_map` drops absent ids). -/
def get_swap_group (g : DependencyGraph) (group_id : Nat) :
    List PendingTransaction :=
  match lookupKV g.swap_groups group_id with
  | some tx_ids => tx_ids.filterMap (fun id => lookupKV g.transactions id)
  | none => []

/-- `DependencyGraph::is_swap_group_ready`: the fetched group is non-empty
and every fetched member is `Ready`. -/
def is_swap_group_ready (g : DependencyGraph) (group_id : Nat) : Bool :=
  let group_txs := get_swap_group g group_id
  !group_txs.isEmpty && group_txs.all (fun tx => tx.state = .Ready)

/-- Gate predicate written from the specification sentence
"is_swap_group_ready(g) iff swap_groups[g] is non-empty and every
transaction in swap_groups[g] has state Ready", with the claim's reading
that a member recorded in the group but absent from the transactions map
counts (and such a member is never Ready).  Kept separate from the code's
`is_swap_group_ready` so the two can be compared. -/
def is_swap_group_ready_specced (g : DependencyGraph) (group_id : Nat) : Bool :=
  match lookupKV g.swap_groups group_id with
  | some tx_ids =>
      !tx_ids.isEmpty && tx_ids.all (fun id =>
        match lookupKV g.transactions id with
        | some tx => tx.state = .Ready
        | none => false)
  | none => false

/-! ### NonceManager (`src/relayer/src/tx/nonce.rs`)

The per-chain `ChainNonceState` sits behind the chain's mutex; each
operation below is the body of the corresponding `NonceManager` method for
one already-initialized chain (the `Chain not initialized` early return is
outside the state transformation). -/

/-- Fields of `ChainNonceState` in `nonce.rs`. -/
structure ChainNonceState where
  current : Nat
  pending : List (Nat × String)
  confirmed : Nat
deriving DecidableEq, Repr

/-- `NonceManager::init_chain` with observed on-chain nonce `on_chain_nonce`:
`current = on_chain_nonce`, empty pending map,
`confirmed = on_chain_nonce.saturating_sub(1)`. -/
def init_chain (on_chain_nonce : Nat) : ChainNonceState :=
  { current := on_chain_nonce
    pending := []
    confirmed := on_chain_nonce - 1 }

/-- `NonceManager::get_nonce`: return `current` and increment it. -/
def get_nonce (s : ChainNonceState) : Nat × ChainNonceState :=
  (s.current, { s with current := s.current + 1 })

/-- `NonceManager::mark_pending`. -/
def mark_pending (s : ChainNonceState) (nonce : Nat) (tx_hash : String) :
    ChainNonceState :=
  { s with pending := insertKV s.pending nonce tx_hash }

/-- `NonceManager::confirm_nonce`: drop the pending entry and raise
`confirmed` to the nonce when it is higher. -/
def confirm_nonce (s : ChainNonceState) (nonce : Nat) : ChainNonceState :=
  { s with
      pending := eraseKV s.pending nonce
      confirmed := if s.confirmed < nonce then nonce else s.confirmed }

/-- `NonceManager::release_nonce`: drop the pending entry, and when the
released nonce is the stack top (`nonce == current - 1`) step `current` back
to it.  The source compares against the unguarded `u64` subtraction
`state.current - 1`; the `none` branch models the underflow (a panic in a
debug build) that this subtraction hits when `current = 0`. -/
def release_nonce (s : ChainNonceState) (nonce : Nat) :
    Option ChainNonceState :=
  if s.current = 0 then none
  else
    let p := eraseKV s.pending nonce
    if nonce = s.current - 1 then some { s with pending := p, current := nonce }
    else some { s with pending := p }

/-- `NonceManager::sync` with refetched on-chain nonce `on_chain_nonce`:
drop pending entries below it, reset
`confirmed = on_chain_nonce.saturating_sub(1)` and raise `current` to at
least `on_chain_nonce` (the gap warning is only a log line). -/
def sync (s : ChainNonceState) (on_chain_nonce : Nat) : ChainNonceState :=
  { current := if s.current < on_chain_nonce then on_chain_nonce else s.current
    pending := s.pending.filter (fun q => !(q.1 < on_chain_nonce : Bool))
    confirmed := on_chain_nonce - 1 }

/-- The specified per-chain nonce invariant: `confirmed < current` and every
pending key lies in `[confirmed + 1, current)`. -/
def NonceInv (s : ChainNonceState) : Prop :=
  s.confirmed < s.current ∧
    ∀ q ∈ s.pending, s.confirmed + 1 ≤ q.1 ∧ q.1 < s.current

/-! ### Error taxonomy (`src/relayer/src/error.rs`), the variants the
embedded code constructs -/

inductive RelayerErr where
  | chainConnection (chain_id : Nat) (message : String)
  | gasEstimation (message : String)
  | reorgDetected (chain_id : Nat) (block_number : Nat)
  | transactionNotFound (tx_id : Nat)
deriving DecidableEq, Repr

/-! ### ChainProvider (`src/relayer/src/chain/provider.rs`)

The pool of HTTP endpoints is embedded as its length `len` together with a
function `f : Nat → Except String α` giving each endpoint's response to the
one RPC call under study; `active` is the value of the atomic
`current_provider` index.  `http()` reads endpoint `active % len`;
`failover()` stores `(active + 1) % len`.  The incidental `last_block`
cache write in `get_block_number` is not modelled (nothing reads it in the
embedded claims). -/

/-- The retry loop of `ChainProvider::get_block_number`: up to `attempts`
tries, each against the active endpoint, advancing the index on error. -/
def block_number_loop (chain_id len : Nat) (f : Nat → Except String Nat) :
    Nat → Nat → Except RelayerErr Nat
  | 0, _ => .error (.chainConnection chain_id "All providers failed")
  | attempts + 1, active =>
      match f (active % len) with
      | .ok block => .ok block
      | .error _ => block_number_loop chain_id len f attempts ((active + 1) % len)

/-- `ChainProvider::get_block_number`: `len` attempts for `len` endpoints. -/
def get_block_number (chain_id len : Nat) (f : Nat → Except String Nat)
    (active : Nat) : Except RelayerErr Nat :=
  block_number_loop chain_id len f len active

/-- A transaction receipt as read by the embedded code: `status` and
`block_number` are optional fields. -/
structure Receipt where
  status : Option Nat
  block_number : Option Nat
deriving DecidableEq, Repr

/-- `ChainProvider::get_transaction_receipt`: a single call against the
active endpoint; an RPC error is mapped to `ChainConnection` immediately,
with no failover and no retry. -/
def get_transaction_receipt (chain_id len : Nat)
    (f : Nat → Except String (Option Receipt)) (active : Nat) :
    Except RelayerErr (Option Receipt) :=
  match f (active % len) with
  | .ok receipt => .ok receipt
  | .error e => .error (.chainConnection chain_id e)

/-! ### Gas pricing (`provider.rs`, `get_gas_price` and
`estimate_eip1559_fees`) -/

/-- The per-chain `GasPriceStrategy` from `config.rs`. -/
inductive GasPriceStrategy where
  | Legacy
  | Eip1559
  | Arbitrum
  | Optimism
deriving DecidableEq, Repr

/-- The `GasPrice` result type from `provider.rs`. -/
inductive GasPrice where
  | Legacy (price : Nat)
  | Eip1559 (max_fee_per_gas max_priority_fee_per_gas : Nat)
deriving DecidableEq, Repr

/-- The latest block as read by `estimate_eip1559_fees`: only the optional
`base_fee_per_gas` field is consumed. -/
structure LatestBlock where
  base_fee_per_gas : Option Nat
deriving DecidableEq, Repr

/-- `ChainProvider::estimate_eip1559_fees`, with the latest-block fetch
result passed in: no block or no base fee is a `GasEstimation` error;
otherwise the priority fee is the fixed 2 gwei default, the max fee is
`base_fee * 2 + priority_fee` capped at `max_gas_price_gwei * 1e9`, and the
pair `(max_fee, priority_fee)` is returned. -/
def estimate_eip1559_fees (latest : Option LatestBlock)
    (max_gas_price_gwei : Nat) : Except RelayerErr (Nat × Nat) :=
  match latest with
  | none => .error (.gasEstimation "No latest block")
  | some block =>
      match block.base_fee_per_gas with
      | none => .error (.gasEstimation "No base fee in block")
      | some base_fee =>
          let priority_fee := 2000000000
          let max_fee := base_fee * 2 + priority_fee
          let max_gwei := max_gas_price_gwei * 1000000000
          .ok (min max_fee max_gwei, priority_fee)

/-- `ChainProvider::get_gas_price`, with the node's answers passed in:
`node_gas_price` is the `get_gas_price` RPC result used by the Legacy and
Arbitrum arms, `latest` the block used by the Eip1559/Optimism arm. -/
def get_gas_price (strategy : GasPriceStrategy) (node_gas_price : Nat)
    (latest : Option LatestBlock) (max_gas_price_gwei : Nat) :
    Except RelayerErr GasPrice :=
  match strategy with
  | .Legacy => .ok (.Legacy node_gas_price)
  | .Eip1559 =>
      (estimate_eip1559_fees latest max_gas_price_gwei).map
        (fun fees => .Eip1559 fees.1 fees.2)
  | .Optimism =>
      (estimate_eip1559_fees latest max_gas_price_gwei).map
        (fun fees => .Eip1559 fees.1 fees.2)
  | .Arbitrum => .ok (.Legacy node_gas_price)

/-! ### FinalityTracker (`src/relayer/src/chain/finality.rs`) -/

/-- The tracker's configuration and mutable maps: `pending` maps a tracked
tx hash to its block, `finalized` is the result cache. -/
structure FinalityTracker where
  chain_id : Nat
  confirmation_blocks : Nat
  pending : List (Nat × Nat)
  finalized : List (Nat × Bool)
deriving DecidableEq, Repr

/-- `FinalityTracker::verify_inclusion` on a fetched receipt: true exactly
when the receipt exists with `status = 1`. -/
def verify_inclusion (receipt : Option Receipt) : Bool :=
  match receipt with
  | some r => r.status = some 1
  | none => false

/-- `FinalityTracker::is_finalized`, with the provider's answers passed in:
`current_block` is the block-number fetch and `receipt` the receipt fetch
used when re-verifying.  Returns the updated tracker and the result.
`current_block.saturating_sub` is `Nat` subtraction. -/
def is_finalized (t : FinalityTracker) (tx_hash current_block : Nat)
    (receipt : Option Receipt) :
    FinalityTracker × Except RelayerErr Bool :=
  match lookupKV t.finalized tx_hash with
  | some cached => (t, .ok cached)
  | none =>
      match lookupKV t.pending tx_hash with
      | some tx_block =>
          let confirmations := current_block - tx_block
          if t.confirmation_blocks ≤ confirmations then
            if verify_inclusion receipt then
              ({ t with
                  finalized := insertKV t.finalized tx_hash true
                  pending := eraseKV t.pending tx_hash },
               .ok true)
            else (t, .error (.reorgDetected t.chain_id tx_block))
          else (t, .ok false)
      | none =>
          match receipt with
          | some r =>
              match r.block_number with
              | some block_num =>
                  let confirmations := current_block - block_num
                  if t.confirmation_blocks ≤ confirmations then
                    ({ t with finalized := insertKV t.finalized tx_hash true },
                     .ok true)
                  else
                    ({ t with pending := insertKV t.pending tx_hash block_num },
                     .ok false)
              | none => (t, .error (.transactionNotFound tx_hash))
          | none => (t, .error (.transactionNotFound tx_hash))

/-! ### ChainListener polling loop (`src/relayer/src/chain/listener.rs`)

One loop iteration observes the current block number and whether the
`get_logs` call succeeds; everything else (parsing, broadcasting) does not
touch the checkpoint. -/

/-- What one iteration of `listen_polling` observes from outside:
the fetched current block and whether `get_logs` returned `Ok`. -/
structure ListenerObs where
  cur : Nat
  logsOk : Bool
deriving DecidableEq, Repr

/-- The block range of one `get_logs` call:
`from_block = last_block + 1`, `to_block = min(current_block, from_block + 1000)`. -/
def scan_window (last_block current_block : Nat) : Nat × Nat :=
  (last_block + 1, min current_block (last_block + 1 + 1000))

/-- One iteration of the `listen_polling` loop, returning the new
`last_processed_block` and the checkpoint value written this iteration
(`none` when the iteration skips — no new blocks — or `get_logs` fails, in
which case the checkpoint is not advanced).  On success the in-memory
`last_processed_block` and the durable row receive the same value
`to_block`. -/
def listener_step (last_block : Nat) (o : ListenerObs) : Nat × Option Nat :=
  if o.cur ≤ last_block then (last_block, none)
  else
    let w := scan_window last_block o.cur
    if o.logsOk then (w.2, some w.2) else (last_block, none)

/-- The sequence of checkpoint values written over a run of the loop. -/
def listener_writes (last_block : Nat) : List ListenerObs → List Nat
  | [] => []
  | o :: rest =>
      match listener_step last_block o with
      | (next, some written) => written :: listener_writes next rest
      | (next, none) => listener_writes next rest

/-- The trajectory of the in-memory `last_processed_block` over a run. -/
def listener_lasts (last_block : Nat) : List ListenerObs → List Nat
  | [] => [last_block]
  | o :: rest => last_block :: listener_lasts (listener_step last_block o).1 rest

/-! ## Theorems -/

/-! ### Association-list lemmas -/

theorem lookupKV_eraseKV (l : List (Nat × α)) (key t : Nat) :
    lookupKV (eraseKV l key) t = if t = key then none else lookupKV l t := by
  induction l with
  | nil => by_cases ht : t = key <;> simp [eraseKV, lookupKV, ht]
  | cons q rest ih =>
    rcases q with ⟨k, v⟩
    by_cases hk : k = key
    · have : eraseKV ((k, v) :: rest) key = eraseKV rest key := by
        simp [eraseKV, List.filter_cons, hk]
      rw [this, ih]
      by_cases ht : t = key
      · simp [ht]
      · have hkt : ¬k = t := by omega
        simp [ht, lookupKV, hkt]
    · have : eraseKV ((k, v) :: rest) key = (k, v) :: eraseKV rest key := by
        simp [eraseKV, List.filter_cons, hk]
      rw [this]
      by_cases hkt : k = t
      · have ht : ¬t = key := by omega
        simp [lookupKV, hkt, ht]
      · simp [lookupKV, hkt, ih]

theorem lookupKV_insertKV_self (l : List (Nat × α)) (key : Nat) (v : α) :
    lookupKV (insertKV l key v) key = some v := by
  simp [insertKV, lookupKV]

theorem lookupKV_insertKV_ne (l : List (Nat × α)) (key t : Nat) (v : α)
    (h : t ≠ key) : lookupKV (insertKV l key v) t = lookupKV l t := by
  have hk : ¬key = t := by omega
  simp [insertKV, lookupKV, hk, lookupKV_eraseKV, h]

theorem lookupKV_updateKV (l : List (Nat × α)) (key t : Nat) (f : α → α) :
    lookupKV (updateKV l key f) t =
      (lookupKV l t).map (fun v => if t = key then f v else v) := by
  induction l with
  | nil => simp [updateKV, lookupKV]
  | cons q rest ih =>
    rcases q with ⟨k, v⟩
    have hcons : updateKV ((k, v) :: rest) key f =
        (if k = key then (k, f v) else (k, v)) :: updateKV rest key f := by
      simp [updateKV]
    rw [hcons]
    by_cases hk : k = key
    · rw [if_pos hk]
      by_cases hkt : k = t
      · have ht : t = key := by omega
        simp [lookupKV, hkt, ht]
      · simp [lookupKV, hkt, ih]
    · rw [if_neg hk]
      by_cases hkt : k = t
      · have ht : ¬t = key := by omega
        simp [lookupKV, hkt, ht]
      · simp [lookupKV, hkt, ih]

theorem mem_eraseKV (l : List (Nat × α)) (key : Nat) (q : Nat × α)
    (h : q ∈ eraseKV l key) : q ∈ l ∧ q.1 ≠ key := by
  unfold eraseKV at h
  rcases List.mem_filter.mp h with ⟨hmem, hne⟩
  exact ⟨hmem, by simpa using hne⟩

/-! ### Listener checkpoint lemmas -/

theorem listener_step_fst_ge (last_block : Nat) (o : ListenerObs) :
    last_block ≤ (listener_step last_block o).1 := by
  unfold listener_step scan_window
  split_ifs <;> simp <;> omega

theorem listener_step_write (last_block : Nat) (o : ListenerObs) (v : Nat)
    (h : (listener_step last_block o).2 = some v) :
    (listener_step last_block o).1 = v ∧ last_block < v := by
  unfold listener_step scan_window at h ⊢
  split_ifs at h ⊢ with h1 h2 <;> simp_all <;> omega

theorem listener_step_nowrite (last_block : Nat) (o : ListenerObs)
    (h : (listener_step last_block o).2 = none) :
    (listener_step last_block o).1 = last_block := by
  unfold listener_step scan_window at h ⊢
  split_ifs at h ⊢ <;> simp_all

theorem listener_writes_gt :
    ∀ (obs : List ListenerObs) (last_block v : Nat),
      v ∈ listener_writes last_block obs → last_block < v := by
  intro obs
  induction obs with
  | nil => intro last_block v h; simp [listener_writes] at h
  | cons o rest ih =>
    intro last_block v h
    unfold listener_writes at h
    rcases hw : (listener_step last_block o).2 with _ | w
    · rw [show listener_step last_block o =
          ((listener_step last_block o).1, (listener_step last_block o).2) from rfl,
        hw] at h
      have := listener_step_nowrite last_block o hw
      rw [this] at h
      exact ih last_block v h
    · rw [show listener_step last_block o =
          ((listener_step last_block o).1, (listener_step last_block o).2) from rfl,
        hw] at h
      obtain ⟨hfst, hlt⟩ := listener_step_write last_block o w hw
      rw [hfst] at h
      simp at h
      rcases h with h | h
      · omega
      · exact lt_trans hlt (ih w v h)

theorem listener_writes_pairwise :
    ∀ (obs : List ListenerObs) (last_block : Nat),
      List.Pairwise (· < ·) (listener_writes last_block obs) := by
  intro obs
  induction obs with
  | nil => intro last_block; simp [listener_writes]
  | cons o rest ih =>
    intro last_block
    unfold listener_writes
    rcases hw : (listener_step last_block o).2 with _ | w
    · rw [show listener_step last_block o =
          ((listener_step last_block o).1, (listener_step last_block o).2) from rfl,
        hw]
      exact ih _
    · rw [show listener_step last_block o =
          ((listener_step last_block o).1, (listener_step last_block o).2) from rfl,
        hw]
      obtain ⟨hfst, _⟩ := listener_step_write last_block o w hw
      rw [hfst]
      exact List.pairwise_cons.mpr
        ⟨fun v hv => listener_writes_gt rest w v hv, ih w⟩

theorem listener_lasts_ge :
    ∀ (obs : List ListenerObs) (last_block v : Nat),
      v ∈ listener_lasts last_block obs → last_block ≤ v := by
  intro obs
  induction obs with
  | nil => intro last_block v h; simp [listener_lasts] at h; omega
  | cons o rest ih =>
    intro last_block v h
    unfold listener_lasts at h
    simp at h
    rcases h with h | h
    · omega
    · exact le_trans (listener_step_fst_ge last_block o) (ih _ v h)

/-- C3: for every chain, the checkpoint values written by the listener loop
(the in-memory `last_processed_block` and the equal value upserted by
`save_checkpoint`) form a monotonically non-decreasing sequence, for every
run of the loop — in fact successive durable writes strictly increase, and
the in-memory trajectory never decreases. -/
theorem checkpoint_monotone :
    ∀ (last_block : Nat) (obs : List ListenerObs),
      List.Pairwise (· ≤ ·) (listener_writes last_block obs) ∧
      List.Pairwise (· ≤ ·) (listener_lasts last_block obs) := by
  intro last_block obs
  constructor
  · exact (listener_writes_pairwise obs last_block).imp (fun h => le_of_lt h)
  · induction obs generalizing last_block with
    | nil => simp [listener_lasts]
    | cons o rest ih =>
      unfold listener_lasts
      exact List.pairwise_cons.mpr
        ⟨fun v hv => le_trans (listener_step_fst_ge last_block o)
            (listener_lasts_ge rest _ v hv),
          ih _⟩

/-- C8 counterexample: when the listener is 2000 blocks behind, the scanned
window is blocks 1 through 1001 inclusive — 1001 block heights, so a
`get_logs` call can cover more than 1000 blocks, contrary to the claim. -/
theorem scan_window_cex :
    scan_window 0 2000 = (1, 1001) ∧
    1000 < (scan_window 0 2000).2 - (scan_window 0 2000).1 + 1 ∧
    listener_step 0 ⟨2000, true⟩ = (1001, some 1001) := by
  refine ⟨?_, by decide, ?_⟩ <;> decide

/-- C8 amended: in every iteration with new blocks (`last < cur`), the range
is `from = last + 1`, `to = min cur (from + 1000)`, the window is non-empty
with `to - from ≤ 1000` — hence at most 1001 block heights inclusive — and
the iteration queries exactly this window (advancing the checkpoint to `to`
only when `get_logs` succeeds). -/
theorem scan_window_amended :
    ∀ last_block current_block : Nat, last_block < current_block →
      (scan_window last_block current_block).1 = last_block + 1 ∧
      (scan_window last_block current_block).2 =
        min current_block (last_block + 1 + 1000) ∧
      (scan_window last_block current_block).1 ≤
        (scan_window last_block current_block).2 ∧
      (scan_window last_block current_block).2 -
        (scan_window last_block current_block).1 ≤ 1000 ∧
      (scan_window last_block current_block).2 + 1 -
        (scan_window last_block current_block).1 ≤ 1001 ∧
      ∀ ok : Bool,
        listener_step last_block ⟨current_block, ok⟩ =
          if ok then ((scan_window last_block current_block).2,
                      some (scan_window last_block current_block).2)
          else (last_block, none) := by
  intro last_block current_block h
  refine ⟨rfl, rfl, ?_, ?_, ?_, ?_⟩
  · simp [scan_window]; omega
  · simp [scan_window]; omega
  · simp [scan_window]; omega
  · intro ok
    have hc : ¬ current_block ≤ last_block := by omega
    cases ok <;> simp [listener_step, scan_window, hc]

/-- C8 witness: the amended statement evaluated at `last = 0`, `cur = 5`. -/
theorem scan_window_amended_witness :
    (scan_window 0 5).1 = 0 + 1 ∧ (scan_window 0 5).2 = min 5 (0 + 1 + 1000) :=
  ⟨(scan_window_amended 0 5 (by decide)).1,
   (scan_window_amended 0 5 (by decide)).2.1⟩

/-! ### Nonce-state lemmas -/

theorem nonce_inv_init (n : Nat) (hn : 1 ≤ n) : NonceInv (init_chain n) := by
  constructor
  · simp [init_chain]; omega
  · intro q hq; simp [init_chain] at hq

theorem nonce_inv_get (s : ChainNonceState) (h : NonceInv s) :
    NonceInv (get_nonce s).2 := by
  obtain ⟨h1, h2⟩ := h
  constructor
  · simp [get_nonce]; omega
  · intro q hq
    have := h2 q (by simpa [get_nonce] using hq)
    simp [get_nonce]
    omega

theorem nonce_inv_mark (s : ChainNonceState) (nonce : Nat) (tx_hash : String)
    (h : NonceInv s) (hlo : s.confirmed + 1 ≤ nonce) (hhi : nonce < s.current) :
    NonceInv (mark_pending s nonce tx_hash) := by
  obtain ⟨h1, h2⟩ := h
  refine ⟨h1, ?_⟩
  intro q hq
  simp [mark_pending, insertKV] at hq
  rcases hq with hq | hq
  · simp [mark_pending, hq]; omega
  · have := h2 q (mem_eraseKV s.pending nonce q hq).1
    simpa [mark_pending] using this

theorem nonce_inv_confirm (s : ChainNonceState) (nonce : Nat)
    (h : NonceInv s) (hhi : nonce < s.current)
    (hmin : ∀ q ∈ s.pending, nonce ≤ q.1) :
    NonceInv (confirm_nonce s nonce) := by
  obtain ⟨h1, h2⟩ := h
  constructor
  · simp [confirm_nonce]
    split_ifs <;> omega
  · intro q hq
    simp [confirm_nonce] at hq ⊢
    obtain ⟨hmem, hne⟩ := mem_eraseKV s.pending nonce q hq
    have hb := h2 q hmem
    have hm := hmin q hmem
    split_ifs <;> omega

theorem nonce_inv_release (s : ChainNonceState) (nonce : Nat)
    (s2 : ChainNonceState) (h : NonceInv s)
    (hside : s.confirmed < nonce ∨ nonce + 1 ≠ s.current)
    (hrel : release_nonce s nonce = some s2) : NonceInv s2 := by
  obtain ⟨h1, h2⟩ := h
  unfold release_nonce at hrel
  rw [if_neg (by omega)] at hrel
  by_cases htop : nonce = s.current - 1
  · rw [if_pos htop] at hrel
    simp at hrel
    subst hrel
    constructor
    · simp; omega
    · intro q hq
      simp at hq ⊢
      obtain ⟨hmem, hne⟩ := mem_eraseKV s.pending nonce q hq
      have hb := h2 q hmem
      omega
  · rw [if_neg htop] at hrel
    simp at hrel
    subst hrel
    constructor
    · simpa using h1
    · intro q hq
      simp at hq ⊢
      obtain ⟨hmem, hne⟩ := mem_eraseKV s.pending nonce q hq
      have hb := h2 q hmem
      omega

theorem nonce_inv_sync (s : ChainNonceState) (on_chain_nonce : Nat)
    (h : NonceInv s) : NonceInv (sync s on_chain_nonce) := by
  obtain ⟨h1, h2⟩ := h
  constructor
  · simp [sync]
    split_ifs <;> omega
  · intro q hq
    simp [sync, List.mem_filter] at hq
    obtain ⟨hmem, hge⟩ := hq
    have hb := h2 q hmem
    simp [sync]
    split_ifs <;> omega

/-- C4 counterexample: `init_chain` observing an on-chain nonce of 0 sets
`current = 0` and `confirmed = 0.saturating_sub(1) = 0`, so the claimed
invariant `confirmed < current` already fails right after initialization. -/
theorem nonce_invariant_cex : ¬ NonceInv (init_chain 0) := by
  intro h
  have := h.1
  simp [init_chain] at this

/-- C4 amended: the invariant `confirmed < current ∧ pending keys in
`[confirmed + 1, current)`` is established by `init_chain` whenever the
observed on-chain nonce is at least 1 (with nonce 0 it fails, as
`confirmed = current = 0`), is preserved unconditionally by `get_nonce` and
`sync`, and is preserved by `mark_pending` when the marked nonce lies in
`[confirmed + 1, current)`, by `confirm_nonce` when the nonce is below
`current` and no pending key is smaller, and by `release_nonce` when the
released nonce is above `confirmed` or is not `current - 1`. -/
theorem nonce_invariant_amended :
    ∀ (n : Nat) (s : ChainNonceState) (nonce : Nat) (tx_hash : String)
      (on_chain_nonce : Nat) (s2 : ChainNonceState),
      (1 ≤ n → NonceInv (init_chain n)) ∧
      (NonceInv s → NonceInv (get_nonce s).2) ∧
      (NonceInv s → s.confirmed + 1 ≤ nonce → nonce < s.current →
         NonceInv (mark_pending s nonce tx_hash)) ∧
      (NonceInv s → nonce < s.current → (∀ q ∈ s.pending, nonce ≤ q.1) →
         NonceInv (confirm_nonce s nonce)) ∧
      (NonceInv s → (s.confirmed < nonce ∨ nonce + 1 ≠ s.current) →
         release_nonce s nonce = some s2 → NonceInv s2) ∧
      (NonceInv s → NonceInv (sync s on_chain_nonce)) := by
  intro n s nonce tx_hash on_chain_nonce s2
  exact ⟨nonce_inv_init n,
    nonce_inv_get s,
    fun h h1 h2 => nonce_inv_mark s nonce tx_hash h h1 h2,
    fun h h1 h2 => nonce_inv_confirm s nonce h h1 h2,
    fun h h1 h2 => nonce_inv_release s nonce s2 h h1 h2,
    fun h => nonce_inv_sync s on_chain_nonce h⟩

/-- C10: `release_nonce` (whose Rust body evaluates the unguarded `u64`
subtraction `current - 1`) is total exactly when `current ≥ 1`; after
`init_chain` observed an on-chain nonce of 0 and before any allocation,
`current = 0` and every release hits the underflow, while a single
`get_nonce` raises `current` to 1 and restores totality. -/
theorem release_nonce_underflow :
    ∀ (s : ChainNonceState) (nonce : Nat),
      ((release_nonce s nonce).isSome ↔ 1 ≤ s.current) ∧
      release_nonce (init_chain 0) nonce = none ∧
      (get_nonce (init_chain 0)).2.current = 1 ∧
      (release_nonce (get_nonce (init_chain 0)).2 nonce).isSome := by
  intro s nonce
  refine ⟨?_, ?_, rfl, ?_⟩
  · unfold release_nonce
    split_ifs <;> simp <;> omega
  · simp [release_nonce, init_chain]
  · simp only [release_nonce, get_nonce, init_chain]
    split_ifs <;> simp_all

/-! ### Gas-price theorems -/

/-- C5 counterexample: with `max_gas_price_gwei = 1` the cap is `1e9`, the
max fee is clamped to it, but the returned priority fee stays at the
2 gwei default `2e9`, above the cap — the priority fee is not clamped. -/
theorem gas_clamp_cex :
    estimate_eip1559_fees (some ⟨some 1000000000⟩) 1 =
      .ok (1000000000, 2000000000) ∧
    1 * 1000000000 < 2000000000 := by
  constructor
  · rfl
  · decide

/-- C5 amended: for the Eip1559 and Optimism strategies, `get_gas_price`
uses the latest block's base fee and a fixed 2 gwei priority fee, computes
`max_fee = 2 * base_fee + priority_fee`, clamps the max fee (only) to
`max_gas_price_gwei * 1e9`, returns the priority fee unclamped, and fails
with `GasEstimation` when the latest block carries no base fee. -/
theorem gas_fees_amended :
    ∀ (base_fee max_gas_price_gwei node_gas_price : Nat),
      get_gas_price .Eip1559 node_gas_price (some ⟨some base_fee⟩)
          max_gas_price_gwei =
        .ok (.Eip1559 (min (base_fee * 2 + 2000000000)
            (max_gas_price_gwei * 1000000000)) 2000000000) ∧
      get_gas_price .Optimism node_gas_price (some ⟨some base_fee⟩)
          max_gas_price_gwei =
        .ok (.Eip1559 (min (base_fee * 2 + 2000000000)
            (max_gas_price_gwei * 1000000000)) 2000000000) ∧
      min (base_fee * 2 + 2000000000) (max_gas_price_gwei * 1000000000) ≤
        max_gas_price_gwei * 1000000000 ∧
      get_gas_price .Eip1559 node_gas_price (some ⟨none⟩) max_gas_price_gwei =
        .error (.gasEstimation "No base fee in block") ∧
      get_gas_price .Optimism node_gas_price (some ⟨none⟩) max_gas_price_gwei =
        .error (.gasEstimation "No base fee in block") := by
  intro base_fee max_gas_price_gwei node_gas_price
  refine ⟨rfl, rfl, Nat.min_le_right _ _, rfl, rfl⟩

/-! ### Provider failover theorems -/

theorem block_number_loop_error (chain_id len : Nat)
    (f : Nat → Except String Nat) (err : RelayerErr) :
    ∀ (attempts active : Nat),
      block_number_loop chain_id len f attempts active = .error err →
      ∀ i < attempts, ∃ e, f ((active + i) % len) = .error e := by
  intro attempts
  induction attempts with
  | zero => intro active _ i hi; omega
  | succ k ih =>
    intro active hloop i hi
    unfold block_number_loop at hloop
    rcases hf : f (active % len) with e | b
    · rw [hf] at hloop
      rcases i with _ | j
      · exact ⟨e, by simpa using hf⟩
      · have := ih ((active + 1) % len) hloop j (by omega)
        rcases this with ⟨e2, he2⟩
        refine ⟨e2, ?_⟩
        rw [← he2]
        congr 1
        rw [Nat.mod_add_mod]
        congr 1
        omega
    · rw [hf] at hloop
      simp at hloop

theorem mod_coverage (len active j : Nat) (hj : j < len) :
    ∃ i, i < len ∧ (active + i) % len = j := by
  have hlen : 0 < len := by omega
  have hb : active % len < len := Nat.mod_lt _ hlen
  by_cases hle : active % len ≤ j
  · refine ⟨j - active % len, by omega, ?_⟩
    rw [← Nat.mod_add_mod]
    have : active % len + (j - active % len) = j := by omega
    rw [this, Nat.mod_eq_of_lt hj]
  · refine ⟨j + len - active % len, by omega, ?_⟩
    rw [← Nat.mod_add_mod]
    have : active % len + (j + len - active % len) = j + len := by omega
    rw [this, Nat.add_mod_right, Nat.mod_eq_of_lt hj]

/-- C6 counterexample: with two endpoints where endpoint 0 errors and
endpoint 1 answers, `get_transaction_receipt` starting at the active index
0 fails immediately with `ChainConnection` carrying the first endpoint's
message — no failover, no retry — while `get_block_number` on the same pool
fails over and succeeds. -/
theorem receipt_failover_cex :
    get_transaction_receipt 1 2
        (fun i => if i = 0 then .error "rpc failed"
                  else .ok (some ⟨some 1, some 5⟩)) 0 =
      .error (.chainConnection 1 "rpc failed") ∧
    get_block_number 1 2
        (fun i => if i = 0 then .error "rpc failed" else .ok 7) 0 = .ok 7 := by
  exact ⟨rfl, rfl⟩

/-- C6 amended: `get_transaction_receipt` performs a single attempt against
the active endpoint: it succeeds exactly when that endpoint succeeds, and on
that endpoint's first error it returns `ChainConnection` immediately — even
when other endpoints would succeed — whereas `get_block_number` returns an
error only when every one of the `len` endpoints fails. -/
theorem receipt_failover_amended :
    ∀ (chain_id len active : Nat) (f : Nat → Except String Nat)
      (g : Nat → Except String (Option Receipt)),
      (∀ r, get_transaction_receipt chain_id len g active = .ok r ↔
         g (active % len) = .ok r) ∧
      (∀ e, g (active % len) = .error e →
         get_transaction_receipt chain_id len g active =
           .error (.chainConnection chain_id e)) ∧
      (∀ err, get_block_number chain_id len f active = .error err →
         ∀ j < len, ∃ e, f j = .error e) := by
  intro chain_id len active f g
  refine ⟨?_, ?_, ?_⟩
  · intro r
    unfold get_transaction_receipt
    rcases hg : g (active % len) with e | v <;> simp [hg]
  · intro e hg
    unfold get_transaction_receipt
    rw [hg]
  · intro err herr j hj
    obtain ⟨i, hi, hcov⟩ := mod_coverage len active j hj
    have := block_number_loop_error chain_id len f err len active herr i hi
    rwa [hcov] at this

/-! ### Finality-tracker theorems -/

/-- C7: for a tracked, uncached transaction hash, once
`current_block - tracked_block` (saturating) reaches `confirmation_blocks`,
`is_finalized` re-verifies via the receipt: a receipt with `status = 1`
caches the hash as finalized and returns true; a missing receipt or any
other status fails with `ReorgDetected` carrying the chain id and the
tracked block; below the confirmation depth it returns false with the
tracker unchanged.  With `confirmation_blocks = 1` a reorg-dropped receipt
therefore raises `ReorgDetected` (see the witness). -/
theorem is_finalized_contract :
    ∀ (t : FinalityTracker) (tx_hash current_block : Nat)
      (receipt : Option Receipt) (tx_block : Nat),
      lookupKV t.finalized tx_hash = none →
      lookupKV t.pending tx_hash = some tx_block →
      ((t.confirmation_blocks ≤ current_block - tx_block →
          (∀ r, receipt = some r → r.status = some 1 →
             is_finalized t tx_hash current_block receipt =
               ({ t with finalized := insertKV t.finalized tx_hash true
                         pending := eraseKV t.pending tx_hash }, .ok true) ∧
             lookupKV (is_finalized t tx_hash current_block receipt).1.finalized
               tx_hash = some true) ∧
          (receipt = none →
             is_finalized t tx_hash current_block receipt =
               (t, .error (.reorgDetected t.chain_id tx_block))) ∧
          (∀ r, receipt = some r → r.status ≠ some 1 →
             is_finalized t tx_hash current_block receipt =
               (t, .error (.reorgDetected t.chain_id tx_block)))) ∧
       (current_block - tx_block < t.confirmation_blocks →
          is_finalized t tx_hash current_block receipt = (t, .ok false))) := by
  intro t tx_hash current_block receipt tx_block hfin hpend
  constructor
  · intro hdepth
    refine ⟨?_, ?_, ?_⟩
    · intro r hr hst
      subst hr
      have hv : verify_inclusion (some r) = true := by
        simp [verify_inclusion, hst]
      constructor
      · simp [is_finalized, hfin, hpend, hdepth, hv]
      · simp [is_finalized, hfin, hpend, hdepth, hv, lookupKV_insertKV_self]
    · intro hr
      subst hr
      simp [is_finalized, hfin, hpend, hdepth, verify_inclusion]
    · intro r hr hst
      subst hr
      have hv : verify_inclusion (some r) = false := by
        simp [verify_inclusion, hst]
      simp [is_finalized, hfin, hpend, hdepth, hv]
  · intro hdepth
    have hlt : ¬ (t.confirmation_blocks ≤ current_block - tx_block) := by omega
    simp [is_finalized, hfin, hpend, hlt]

/-- C7 witness: a tracker with `confirmation_blocks = 1`, tx hash 7 tracked
at block 100, current block 101 and a reorg-dropped (missing) receipt
raises `ReorgDetected{chain 5, block 100}`. -/
theorem is_finalized_contract_witness :
    is_finalized ⟨5, 1, [(7, 100)], []⟩ 7 101 none =
      (⟨5, 1, [(7, 100)], []⟩, .error (.reorgDetected 5 100)) :=
  ((is_finalized_contract ⟨5, 1, [(7, 100)], []⟩ 7 101 none 100 rfl rfl).1
    (by decide)).2.1 rfl

/-! ### Dependency-graph lemmas -/

theorem lookupKV_foldl_updateKV_fixed (F : α → α) (ids : List Nat) :
    ∀ (l : List (Nat × α)) (t : Nat) (v : α),
      lookupKV l t = some v → F v = v →
      lookupKV (ids.foldl (fun acc id => updateKV acc id F) l) t = some v := by
  induction ids with
  | nil => intro l t v hl _; simpa using hl
  | cons id rest ih =>
    intro l t v hl hfix
    have hstep : lookupKV (updateKV l id F) t = some v := by
      rw [lookupKV_updateKV, hl]
      by_cases ht : t = id <;> simp [ht, hfix]
    simpa using ih (updateKV l id F) t v hstep hfix

theorem add_transaction_transactions (g : DependencyGraph)
    (tx : PendingTransaction) :
    (add_transaction g tx).transactions =
      insertKV g.transactions tx.tx_id tx := by
  unfold add_transaction
  rcases tx.dependency_id with _ | d <;> rcases tx.swap_group_id with _ | s <;> rfl

theorem add_transaction_dependents_none (g : DependencyGraph)
    (tx : PendingTransaction) (h : tx.dependency_id = none) :
    (add_transaction g tx).dependents = g.dependents := by
  unfold add_transaction
  rw [h]
  rcases tx.swap_group_id with _ | s <;> rfl

theorem add_transaction_dependents_some (g : DependencyGraph)
    (tx : PendingTransaction) (d : Nat) (h : tx.dependency_id = some d) :
    (add_transaction g tx).dependents = addToSet g.dependents d tx.tx_id := by
  unfold add_transaction
  rw [h]
  rcases tx.swap_group_id with _ | s <;> rfl

theorem add_transaction_swap_groups_none (g : DependencyGraph)
    (tx : PendingTransaction) (h : tx.swap_group_id = none) :
    (add_transaction g tx).swap_groups = g.swap_groups := by
  unfold add_transaction
  rw [h]
  rcases tx.dependency_id with _ | d <;> rfl

theorem add_transaction_swap_groups_some (g : DependencyGraph)
    (tx : PendingTransaction) (s : Nat) (h : tx.swap_group_id = some s) :
    (add_transaction g tx).swap_groups = addToSet g.swap_groups s tx.tx_id := by
  unfold add_transaction
  rw [h]
  rcases tx.dependency_id with _ | d <;> rfl

theorem addToSet_preserves (l : List (Nat × List Nat)) (key x k id : Nat)
    (ids : List Nat) (hl : lookupKV l k = some ids) (hid : id ∈ ids) :
    ∃ ids2, lookupKV (addToSet l key x) k = some ids2 ∧ id ∈ ids2 := by
  unfold addToSet
  rcases hkey : lookupKV l key with _ | s
  · by_cases hk : k = key
    · subst hk; rw [hl] at hkey; cases hkey
    · exact ⟨ids, by rw [lookupKV_insertKV_ne _ _ _ _ hk]; exact hl, hid⟩
  · by_cases hk : k = key
    · subst hk
      rw [hl] at hkey
      injection hkey with hs
      subst hs
      refine ⟨if x ∈ ids then ids else x :: ids, lookupKV_insertKV_self _ _ _, ?_⟩
      by_cases hx : x ∈ ids <;> simp [hx, hid]
    · exact ⟨ids, by rw [lookupKV_insertKV_ne _ _ _ _ hk]; exact hl, hid⟩

theorem notify_dependents_keeps (g : DependencyGraph) (resolved t : Nat)
    (tx : PendingTransaction) (hl : lookupKV g.transactions t = some tx)
    (hst : tx.state ≠ .DependencyPending) :
    lookupKV (notify_dependents g resolved).transactions t = some tx := by
  unfold notify_dependents
  rcases hdep : lookupKV g.dependents resolved with _ | waiting
  · exact hl
  · exact lookupKV_foldl_updateKV_fixed _ waiting g.transactions t tx hl
      (by simp [hst])

/-! ### C1 theorems -/

/-- C1 counterexample: a transaction stored in the terminal state
`Finalized` is moved back to the strictly earlier state `Ready` by a
subsequent `mark_ready` on its id, so terminal states are not sinks of the
graph operations. -/
theorem terminal_state_cex :
    lookupKV
        (DependencyGraph.transactions
          ⟨[(1, ⟨1, 0, 0, none, none, .Finalized, 0⟩)], [], []⟩) 1 =
      some ⟨1, 0, 0, none, none, .Finalized, 0⟩ ∧
    lookupKV
        (mark_ready ⟨[(1, ⟨1, 0, 0, none, none, .Finalized, 0⟩)], [], []⟩
          1).transactions 1 =
      some ⟨1, 0, 0, none, none, .Ready, 0⟩ ∧
    TransactionState.Ready ≠ TransactionState.Finalized := by
  refine ⟨rfl, rfl, by decide⟩

/-- C1 amended: only `notify_dependents` guards the state it overwrites (it
elevates exclusively `DependencyPending` transactions, so a transaction in
`Finalized`, `Failed`, `Expired` — or any other non-`DependencyPending`
state — is untouched by it), and the graph operations leave a stored
transaction unchanged when they target a different id; but `mark_ready`
(like the other `mark_*` setters) overwrites the state of its target
unconditionally, so a terminal transaction is moved back to `Ready` by a
later `mark_ready` on its id. -/
theorem terminal_state_amended :
    ∀ (g : DependencyGraph) (resolved t u : Nat) (tx : PendingTransaction)
      (tx2 : PendingTransaction),
      (lookupKV g.transactions t = some tx → tx.state ≠ .DependencyPending →
         lookupKV (notify_dependents g resolved).transactions t = some tx) ∧
      (lookupKV g.transactions t = some tx → t ≠ u →
         lookupKV (mark_ready g u).transactions t = some tx ∧
         lookupKV (mark_submitted g u).transactions t = some tx ∧
         lookupKV (mark_failed g u).transactions t = some tx) ∧
      (lookupKV g.transactions t = some tx → t ≠ u →
         tx.state ≠ .DependencyPending →
         lookupKV (mark_finalized g u).transactions t = some tx) ∧
      (lookupKV g.transactions t = some tx → tx2.tx_id ≠ t →
         lookupKV (add_transaction g tx2).transactions t = some tx) ∧
      (lookupKV g.transactions t = some tx →
         lookupKV (mark_ready g t).transactions t =
           some { tx with state := .Ready }) := by
  intro g resolved t u tx tx2
  refine ⟨?_, ?_, ?_, ?_, ?_⟩
  · exact fun hl hst => notify_dependents_keeps g resolved t tx hl hst
  · intro hl htu
    refine ⟨?_, ?_, ?_⟩ <;>
      simp [mark_ready, mark_submitted, mark_failed, lookupKV_updateKV, hl, htu]
  · intro hl htu hst
    have hmid :
        lookupKV (updateKV g.transactions u
          (fun tx => { tx with state := .Finalized })) t = some tx := by
      simp [lookupKV_updateKV, hl, htu]
    exact notify_dependents_keeps
      { g with transactions :=
          updateKV g.transactions u (fun tx => { tx with state := .Finalized }) }
      u t tx hmid hst
  · intro hl hne
    rw [add_transaction_transactions,
      lookupKV_insertKV_ne _ _ _ _ (fun h => hne h.symm)]
    exact hl
  · intro hl
    simp [mark_ready, lookupKV_updateKV, hl]

/-- C1 witness: the amended statement evaluated on a one-transaction graph
holding tx 1 in `Finalized`: `notify_dependents` leaves it `Finalized`,
while `mark_ready` on its id moves it to `Ready`. -/
theorem terminal_state_amended_witness :
    lookupKV
        (notify_dependents ⟨[(1, ⟨1, 0, 0, none, none, .Finalized, 0⟩)], [], []⟩
          9).transactions 1 =
      some ⟨1, 0, 0, none, none, .Finalized, 0⟩ ∧
    lookupKV
        (mark_ready ⟨[(1, ⟨1, 0, 0, none, none, .Finalized, 0⟩)], [], []⟩
          1).transactions 1 =
      some ⟨1, 0, 0, none, none, .Ready, 0⟩ :=
  ⟨(terminal_state_amended ⟨[(1, ⟨1, 0, 0, none, none, .Finalized, 0⟩)], [], []⟩
      9 1 2 ⟨1, 0, 0, none, none, .Finalized, 0⟩
      ⟨1, 0, 0, none, none, .Finalized, 0⟩).1 rfl (by decide),
   (terminal_state_amended ⟨[(1, ⟨1, 0, 0, none, none, .Finalized, 0⟩)], [], []⟩
      9 1 2 ⟨1, 0, 0, none, none, .Finalized, 0⟩
      ⟨1, 0, 0, none, none, .Finalized, 0⟩).2.2.2.2 rfl⟩

/-! ### C2 theorems -/

/-- C2 counterexample: swap group 5 records members 1 and 2, member 2 is
absent from the transactions map and member 1 is `Ready`;
`is_swap_group_ready` answers true because `get_swap_group` silently drops
the absent member, while the claimed gate (quantifying over all recorded
members, absent ones included) is false. -/
theorem swap_group_gate_cex :
    is_swap_group_ready
        ⟨[(1, ⟨1, 0, 0, none, some 5, .Ready, 0⟩)], [], [(5, [1, 2])]⟩ 5 =
      true ∧
    is_swap_group_ready_specced
        ⟨[(1, ⟨1, 0, 0, none, some 5, .Ready, 0⟩)], [], [(5, [1, 2])]⟩ 5 =
      false := by
  exact ⟨rfl, rfl⟩

/-- C2 amended: `is_swap_group_ready(g)` holds iff the group exists, at
least one recorded member is present in the transactions map, and every
recorded member that is present has state `Ready`; members recorded in the
group but absent from the transactions map are ignored by the gate. -/
theorem swap_group_gate_amended :
    ∀ (g : DependencyGraph) (group_id : Nat),
      is_swap_group_ready g group_id = true ↔
        ∃ tx_ids, lookupKV g.swap_groups group_id = some tx_ids ∧
          (∃ id ∈ tx_ids, (lookupKV g.transactions id).isSome) ∧
          (∀ id ∈ tx_ids, ∀ tx, lookupKV g.transactions id = some tx →
             tx.state = .Ready) := by
  intro g group_id
  unfold is_swap_group_ready get_swap_group
  rcases hgrp : lookupKV g.swap_groups group_id with _ | tx_ids
  · simp
  · simp only [Bool.and_eq_true, Bool.not_eq_true', List.isEmpty_eq_false,
      List.all_eq_true]
    constructor
    · rintro ⟨hne, hall⟩
      refine ⟨tx_ids, rfl, ?_, ?_⟩
      · rcases List.exists_mem_of_ne_nil _ hne with ⟨tx, htx⟩
        rcases List.mem_filterMap.mp htx with ⟨id, hid, hlook⟩
        exact ⟨id, hid, by simp [hlook]⟩
      · intro id hid tx hlook
        have : tx ∈ tx_ids.filterMap (fun id => lookupKV g.transactions id) :=
          List.mem_filterMap.mpr ⟨id, hid, hlook⟩
        simpa using hall tx this
    · rintro ⟨ids2, hids2, ⟨id, hid, hsome⟩, hall⟩
      injection hids2 with hids2
      subst hids2
      constructor
      · intro hnil
        rw [List.filterMap_eq_nil_iff] at hnil
        rw [hnil id hid] at hsome
        cases hsome
      · intro tx htx
        rcases List.mem_filterMap.mp htx with ⟨id2, hid2, hlook2⟩
        simpa using hall id2 hid2 tx hlook2

/-- C2 witness: the amended equivalence evaluated on a two-member group
whose members are both present and `Ready`. -/
theorem swap_group_gate_amended_witness :
    is_swap_group_ready
        ⟨[(1, ⟨1, 0, 0, none, some 5, .Ready, 0⟩),
          (2, ⟨2, 0, 0, none, some 5, .Ready, 0⟩)], [], [(5, [1, 2])]⟩ 5 =
      true :=
  (swap_group_gate_amended
      ⟨[(1, ⟨1, 0, 0, none, some 5, .Ready, 0⟩),
        (2, ⟨2, 0, 0, none, some 5, .Ready, 0⟩)], [], [(5, [1, 2])]⟩ 5).mpr
    ⟨[1, 2], rfl, ⟨1, by decide, by decide⟩, by decide⟩

/-! ### C9 theorems -/

/-- C9 counterexample: re-inserting an existing `tx_id` replaces the whole
stored record, not just the state: after inserting tx 1 with
`origin_chain = 10` and re-inserting id 1 with `origin_chain = 99`, the
stored origin chain is 99. -/
theorem add_transaction_upsert_cex :
    lookupKV
        (add_transaction ⟨[], [], []⟩
          ⟨1, 10, 20, none, none, .Buffered, 0⟩).transactions 1 =
      some ⟨1, 10, 20, none, none, .Buffered, 0⟩ ∧
    lookupKV
        (add_transaction
          (add_transaction ⟨[], [], []⟩ ⟨1, 10, 20, none, none, .Buffered, 0⟩)
          ⟨1, 99, 20, none, none, .DependencyPending, 0⟩).transactions 1 =
      some ⟨1, 99, 20, none, none, .DependencyPending, 0⟩ ∧
    (99 : Nat) ≠ 10 := by
  refine ⟨rfl, rfl, by decide⟩

/-- C9 amended: `tx_id` is a primary key of the graph — `add_transaction`
stores the new record under its id and leaves every other id's record
unchanged — but re-insertion of an existing id is a full-record upsert
(all fields take the new transaction's values, not only the state), and the
pre-existing `dependents` and `swap_groups` entries are never removed:
membership in those sets is preserved across any insertion. -/
theorem add_transaction_amended :
    ∀ (g : DependencyGraph) (tx : PendingTransaction),
      lookupKV (add_transaction g tx).transactions tx.tx_id = some tx ∧
      (∀ k, k ≠ tx.tx_id →
         lookupKV (add_transaction g tx).transactions k =
           lookupKV g.transactions k) ∧
      (∀ d ids id, lookupKV g.dependents d = some ids → id ∈ ids →
         ∃ ids2, lookupKV (add_transaction g tx).dependents d = some ids2 ∧
           id ∈ ids2) ∧
      (∀ gid ids id, lookupKV g.swap_groups gid = some ids → id ∈ ids →
         ∃ ids2, lookupKV (add_transaction g tx).swap_groups gid = some ids2 ∧
           id ∈ ids2) := by
  intro g tx
  refine ⟨?_, ?_, ?_, ?_⟩
  · rw [add_transaction_transactions]
    exact lookupKV_insertKV_self _ _ _
  · intro k hk
    rw [add_transaction_transactions]
    exact lookupKV_insertKV_ne _ _ _ _ hk
  · intro d ids id hl hid
    rcases hdep : tx.dependency_id with _ | d2
    · rw [add_transaction_dependents_none g tx hdep]
      exact ⟨ids, hl, hid⟩
    · rw [add_transaction_dependents_some g tx d2 hdep]
      exact addToSet_preserves g.dependents d2 tx.tx_id d id ids hl hid
  · intro gid ids id hl hid
    rcases hswap : tx.swap_group_id with _ | s2
    · rw [add_transaction_swap_groups_none g tx hswap]
      exact ⟨ids, hl, hid⟩
    · rw [add_transaction_swap_groups_some g tx s2 hswap]
      exact addToSet_preserves g.swap_groups s2 tx.tx_id gid id ids hl hid

/-- C9 witness: the amended statement evaluated at a concrete graph and
re-inserted transaction. -/
theorem add_transaction_amended_witness :
    lookupKV
        (add_transaction ⟨[(1, ⟨1, 10, 20, none, none, .Buffered, 0⟩)], [], []⟩
          ⟨1, 99, 20, none, none, .DependencyPending, 0⟩).transactions 1 =
      some ⟨1, 99, 20, none, none, .DependencyPending, 0⟩ :=
  (add_transaction_amended ⟨[(1, ⟨1, 10, 20, none, none, .Buffered, 0⟩)], [], []⟩
      ⟨1, 99, 20, none, none, .DependencyPending, 0⟩).1

end Tesseract
